import Mathlib

/-! Shallow embedding of `src/file_manager/file_handle.rs`.

The Rust module implements a fixed-size page store over a single backing
file.  We model the backing `File` as a list of bytes (`List Nat`, each
entry the value of one byte) together with the current cursor position,
and each `FileHandle` method as a pure function on an explicit
`FileHandle` state.

Modelling choices (each one matches the source unless noted):
* The underlying OS file is ideal: `seek`/`read`/`write` never fail, a
  `write` always transfers the whole buffer, and a `read` transfers
  `min PAGE_SIZE (remaining bytes)` bytes.  Underlying-I/O failures and
  short transfers are environmental nondeterminism outside the model.
* Seeking past end-of-file and then writing zero-fills the gap, as POSIX
  files do; this is captured by `writeBytes`.
* `read_to_string` succeeds exactly on valid UTF-8 contents; `validUtf8`
  is an exact byte-level UTF-8 validator.  The subsequent `split`,
  `trim`, `starts_with` and `parse` string operations are modelled at
  byte level; on valid UTF-8 (the only data that reaches them) this is
  exact: `'|'` never occurs inside a multi-byte sequence, `trimBytes`
  removes the UTF-8 encodings of the full Unicode White_Space set that
  `str::trim` removes, and `str::parse::<usize>` only ever consumes
  ASCII `'+'` and ASCII digits.
* Rust `usize` is modelled as `Nat` with a 64-bit width where it
  matters: `str::parse::<usize>()` rejects numerals above
  `USIZE_MAX = 2^64 - 1` (the `PosOverflow` error), which `.unwrap()`
  turns into a panic.  Arithmetic overflow of the offset computations is
  not modelled; no claim depends on it.
* A `parse().unwrap()` panic in `FileHandle::new` is modelled as the
  distinguished constructor outcome `NewError.panicked`.
-/

namespace RustDb

/-- Model of `const PAGE_SIZE: usize = 4096;`. -/
def PAGE_SIZE : Nat := 4096

/-! Byte-level models of the string operations used by `FileHandle::new`. -/

/-- The byte is one of the ASCII white-space characters removed by
`str::trim` (TAB, LF, VT, FF, CR, SPACE). -/
def isWs (b : Nat) : Bool :=
  b == 9 || b == 10 || b == 11 || b == 12 || b == 13 || b == 32

/-- The byte is an ASCII digit, i.e. a character consumed by
`str::parse::<usize>`. -/
def isDigit (b : Nat) : Bool :=
  48 ≤ b && b ≤ 57

/-- Model of `str::split("|")`: split a byte list on the byte `124`
(`'|'`).  Splitting the empty list yields one empty field, as in Rust. -/
def splitPipe : List Nat → List (List Nat)
  | [] => [[]]
  | b :: rest =>
    if b == 124 then [] :: splitPipe rest
    else
      match splitPipe rest with
      | [] => [[b]]
      | f :: fs => (b :: f) :: fs

/-- Byte length of the UTF-8 encoding of a Unicode white-space
character at the head of the byte list, and 0 when the head is not
white space.  The characters are exactly those with the Unicode
White_Space property, which is what Rust's `char::is_whitespace` (used
by `str::trim`) tests: U+0009..U+000D, U+0020, U+0085, U+00A0, U+1680,
U+2000..U+200A, U+2028, U+2029, U+202F, U+205F, U+3000. -/
def wsLen (l : List Nat) : Nat :=
  if isWs (l.getD 0 0) then 1
  else if l.getD 0 0 = 194 && (l.getD 1 0 = 133 || l.getD 1 0 = 160) then 2
  else if l.getD 0 0 = 225 && l.getD 1 0 = 154 && l.getD 2 0 = 128 then 3
  else if l.getD 0 0 = 226 && l.getD 1 0 = 128 &&
      ((128 ≤ l.getD 2 0 && l.getD 2 0 ≤ 138) || l.getD 2 0 = 168 ||
        l.getD 2 0 = 169 || l.getD 2 0 = 175) then 3
  else if l.getD 0 0 = 226 && l.getD 1 0 = 129 && l.getD 2 0 = 159 then 3
  else if l.getD 0 0 = 227 && l.getD 1 0 = 128 && l.getD 2 0 = 128 then 3
  else 0

/-- Like `wsLen`, but on a reversed byte list (the bytes of each
white-space character read back to front), used for the trailing trim.
On valid UTF-8 this is unambiguous: ASCII, continuation and lead bytes
occupy disjoint ranges. -/
def wsLenRev (l : List Nat) : Nat :=
  if isWs (l.getD 0 0) then 1
  else if l.getD 1 0 = 194 && (l.getD 0 0 = 133 || l.getD 0 0 = 160) then 2
  else if l.getD 2 0 = 225 && l.getD 1 0 = 154 && l.getD 0 0 = 128 then 3
  else if l.getD 2 0 = 226 && l.getD 1 0 = 128 &&
      ((128 ≤ l.getD 0 0 && l.getD 0 0 ≤ 138) || l.getD 0 0 = 168 ||
        l.getD 0 0 = 169 || l.getD 0 0 = 175) then 3
  else if l.getD 2 0 = 226 && l.getD 1 0 = 129 && l.getD 0 0 = 159 then 3
  else if l.getD 2 0 = 227 && l.getD 1 0 = 128 && l.getD 0 0 = 128 then 3
  else 0

/-- Repeatedly drop a leading white-space character, its length given
by the measure `f`; the structural fuel (instantiated with the list
length) keeps the definition kernel-reducible. -/
def dropWsAux (f : List Nat → Nat) : Nat → List Nat → List Nat
  | 0, l => l
  | fuel + 1, l => if f l = 0 then l else dropWsAux f fuel (l.drop (f l))

/-- Model of `str::trim`: drop Unicode white-space characters (at byte
level) from both ends. -/
def trimBytes (f : List Nat) : List Nat :=
  (dropWsAux wsLenRev (dropWsAux wsLen f.length f).reverse.length
    (dropWsAux wsLen f.length f).reverse).reverse

/-- The filter `|s| !s.is_empty() && !s.starts_with("0")` from
`FileHandle::new`. -/
def keepField (f : List Nat) : Bool :=
  !f.isEmpty && f.head? != some 48

/-- Strip one leading `'+'` (byte 43), as `str::parse::<usize>` accepts
an optional plus sign. -/
def stripPlus (f : List Nat) : List Nat :=
  if f.head? = some 43 then f.tail else f

/-- The largest value a (64-bit) `usize` can hold. -/
def USIZE_MAX : Nat := 2 ^ 64 - 1

/-- Model of `str::parse::<usize>()`: an optional `'+'` followed by at
least one ASCII digit, denoting a value that fits in `usize`; `none`
models a parse error — non-numeric content (`InvalidDigit`) or a
numeral above `USIZE_MAX` (`PosOverflow`) — and hence, under the
`.unwrap()` in the source, a panic. -/
def parseNat (f : List Nat) : Option Nat :=
  if !(stripPlus f).isEmpty && (stripPlus f).all isDigit then
    if (stripPlus f).foldl (fun acc b => 10 * acc + (b - 48)) 0 ≤ USIZE_MAX then
      some ((stripPlus f).foldl (fun acc b => 10 * acc + (b - 48)) 0)
    else none
  else none

/-- Model of `.map(|s| s.parse().unwrap()).collect()`: parse every retained
field; a single failure is the panic of the whole constructor. -/
def parseAll : List (List Nat) → Option (List Nat)
  | [] => some []
  | f :: fs =>
    match parseNat f, parseAll fs with
    | some v, some vs => some (v :: vs)
    | _, _ => none

/-- The full header-parsing pipeline of `FileHandle::new`: split the
file content on `'|'`, trim each field, drop fields that are empty or
start with `'0'`, and parse the survivors. -/
def parsedCounters (content : List Nat) : Option (List Nat) :=
  parseAll (((splitPipe content).map trimBytes).filter keepField)

/-! Decimal formatting, the semantics of Rust `format!`. -/

/-- Little-endian decimal digits of `n`, with explicit structural fuel
so that the definition reduces inside the kernel. -/
def natDigitsAux : Nat → Nat → List Nat
  | 0, _ => []
  | fuel + 1, n => if n = 0 then [] else n % 10 :: natDigitsAux fuel (n / 10)

/-- Little-endian decimal digits of `n` (`[]` for `0`). -/
def natDigits (n : Nat) : List Nat := natDigitsAux n n

/-- The ASCII bytes of `format!("{}", n)`. -/
def natReprBytes (n : Nat) : List Nat :=
  if n = 0 then [48] else (natDigits n).reverse.map (fun d => 48 + d)

/-- The ASCII bytes of
`format!("{}|{}|{}|{}", read_count, write_count, append_count, num_pages)`. -/
def countersBytes (r w a n : Nat) : List Nat :=
  natReprBytes r ++ (124 :: (natReprBytes w ++ (124 :: (natReprBytes a ++
    (124 :: natReprBytes n)))))

/-! UTF-8 validity: `File::read_to_string` fails on invalid UTF-8. -/

/-- State machine for UTF-8 validation: `pending` continuation bytes are
still expected, the next one constrained to `[lo, hi]`. -/
def utf8Step : List Nat → Nat → Nat → Nat → Bool
  | [], 0, _, _ => true
  | [], _ + 1, _, _ => false
  | b :: rest, 0, _, _ =>
    if b < 128 then utf8Step rest 0 0 0
    else if 194 ≤ b && b ≤ 223 then utf8Step rest 1 128 191
    else if b == 224 then utf8Step rest 2 160 191
    else if 225 ≤ b && b ≤ 236 then utf8Step rest 2 128 191
    else if b == 237 then utf8Step rest 2 128 159
    else if 238 ≤ b && b ≤ 239 then utf8Step rest 2 128 191
    else if b == 240 then utf8Step rest 3 144 191
    else if 241 ≤ b && b ≤ 243 then utf8Step rest 3 128 191
    else if b == 244 then utf8Step rest 3 128 143
    else false
  | b :: rest, n + 1, lo, hi =>
    if lo ≤ b && b ≤ hi then utf8Step rest n 128 191 else false

/-- The byte list is valid UTF-8. -/
def validUtf8 (l : List Nat) : Bool := utf8Step l 0 0 0

/-! The ideal backing file. -/

/-- Writing `d` at position `pos` into a file whose bytes are `c`:
bytes before `pos` are preserved, a seek past end-of-file zero-fills the
gap, and bytes after the written range are preserved. -/
def writeBytes (c : List Nat) (pos : Nat) (d : List Nat) : List Nat :=
  c.take pos ++ List.replicate (pos - c.length) 0 ++ d ++ c.drop (pos + d.length)

/-! The `FileHandle` state and its methods. -/

/-- The `FileHandle` struct, with the owned `File` expanded into its
bytes and cursor position. -/
structure FileHandle where
  num_pages : Nat
  content : List Nat
  pos : Nat
  read_count : Nat
  write_count : Nat
  append_count : Nat
deriving DecidableEq, Repr

/-- The error value built by `read_page`/`write_page` on a bad index
(`io::Error` with `ErrorKind::InvalidInput`, "Index Out of Bounds"). -/
inductive DbError where
  | outOfBounds
deriving DecidableEq, Repr

/-- How `FileHandle::new` can fail: an I/O error propagated with `?`
(in the model, only the `read_to_string` UTF-8 failure), or the
`parse().unwrap()` panic. -/
inductive NewError where
  | ioError
  | panicked
deriving DecidableEq, Repr

/-- Model of `FileHandle::new(file)`.  On an empty file it writes the initial
header `"0|0|0|0"` and zero-initializes everything; on a non-empty file
it reads the whole content as text and runs the header-parsing pipeline,
falling back to all-zero counters unless it yields exactly 4 values. -/
def new (content : List Nat) : Except NewError FileHandle :=
  if 0 < content.length then
    if validUtf8 content then
      match parsedCounters content with
      | none => .error .panicked
      | some [r, w, a, n] => .ok ⟨n, content, content.length, r, w, a⟩
      | some _ => .ok ⟨0, content, content.length, 0, 0, 0⟩
    else .error .ioError
  else
    .ok ⟨0, writeBytes content 0 (countersBytes 0 0 0 0),
      (countersBytes 0 0 0 0).length, 0, 0, 0⟩

/-- Model of `FileHandle::write_to(pos, data)`: seek to `pos`, then write the
whole buffer; returns the new state and the byte count reported by
`File::write`. -/
def write_to (h : FileHandle) (pos : Nat) (d : List Nat) : FileHandle × Nat :=
  ({ h with content := writeBytes h.content pos d, pos := pos + d.length },
    d.length)

/-- Model of `FileHandle::write_counters()`: serialize the four counters and
write them with `File::write` — at the current cursor position, since
the source performs no seek. -/
def write_counters (h : FileHandle) : FileHandle × Nat :=
  write_to h h.pos
    (countersBytes h.read_count h.write_count h.append_count h.num_pages)

/-- Model of `FileHandle::read_from(pos, data)`: seek to `pos`, read up to
`PAGE_SIZE` bytes into a zero-initialized `[u8; PAGE_SIZE]` buffer, and
`put_slice` the whole buffer into `data`; returns the new state, the
grown buffer, and the number of bytes actually read. -/
def read_from (h : FileHandle) (pos : Nat) (data : List Nat) :
    FileHandle × List Nat × Nat :=
  let bytesRead := min PAGE_SIZE (h.content.length - pos)
  let chunk := (h.content.drop pos).take bytesRead ++
    List.replicate (PAGE_SIZE - bytesRead) 0
  ({ h with pos := pos + bytesRead }, data ++ chunk, bytesRead)

/-- Model of `FileHandle::read_page(page_num, data)`. -/
def read_page (h : FileHandle) (page_num : Nat) (data : List Nat) :
    FileHandle × List Nat × Except DbError Nat :=
  if page_num ≥ h.num_pages then (h, data, .error .outOfBounds)
  else
    let t := read_from h ((page_num + 1) * PAGE_SIZE) data
    (t.1, t.2.1, .ok t.2.2)

/-- Model of `FileHandle::write_page(page_num, data)`. -/
def write_page (h : FileHandle) (page_num : Nat) (data : List Nat) :
    FileHandle × Except DbError Nat :=
  if page_num ≥ h.num_pages then (h, .error .outOfBounds)
  else
    let t := write_to h ((page_num + 1) * PAGE_SIZE) data
    ({ t.1 with write_count := t.1.write_count + 1 }, .ok t.2)

/-- Model of `FileHandle::append_page(data)`. -/
def append_page (h : FileHandle) (data : List Nat) :
    FileHandle × Except DbError Nat :=
  let t := write_to h ((h.num_pages + 1) * PAGE_SIZE) data
  ({ t.1 with
      num_pages := t.1.num_pages + 1
      append_count := t.1.append_count + 1 }, .ok t.2)

/-- Model of `FileHandle::get_num_pages()`. -/
def get_num_pages (h : FileHandle) : Nat := h.num_pages

/-- The addressing function named by the specification:
`offset(page_index) = (page_index + 1) * PAGE_SIZE`.  (This definition
follows the spec's words; the claims compare it with the inline offset
expressions of the source methods.) -/
def offset (i : Nat) : Nat := (i + 1) * PAGE_SIZE

/-- One public mutating call on a store (the buffer passed to a read
does not influence the store state, but is kept for completeness). -/
inductive Op where
  | read (page : Nat) (data : List Nat)
  | write (page : Nat) (data : List Nat)
  | append (data : List Nat)
deriving DecidableEq, Repr

/-- The store state after one public call. -/
def applyOp (h : FileHandle) : Op → FileHandle
  | .read i d => (read_page h i d).1
  | .write i d => (write_page h i d).1
  | .append d => (append_page h d).1

/-- The store state after a sequence of public calls. -/
def runOps (h : FileHandle) (ops : List Op) : FileHandle :=
  ops.foldl applyOp h

/-- The file content produced by flushing the header of a store with
counters `(r, w, a, n)` onto an empty file at position 0 — the scenario
of spec property P5. -/
def flushedContent (r w a n : Nat) : List Nat :=
  ((write_counters ⟨n, [], 0, r, w, a⟩).1).content

/-! Helper lemmas: decimal digits and the format/parse round trip. -/

/-- The number denoted by a little-endian digit list. -/
def digitsVal : List Nat → Nat
  | [] => 0
  | d :: ds => d + 10 * digitsVal ds

theorem natDigitsAux_zero (f : Nat) : natDigitsAux f 0 = [] := by
  cases f <;> simp [natDigitsAux]

theorem digitsVal_natDigitsAux :
    ∀ f n, n ≤ f → digitsVal (natDigitsAux f n) = n := by
  intro f
  induction f with
  | zero =>
    intro n hn
    have : n = 0 := by omega
    subst this
    simp [natDigitsAux, digitsVal]
  | succ f ih =>
    intro n hn
    by_cases h0 : n = 0
    · subst h0; simp [natDigitsAux, digitsVal]
    · have hdiv : n / 10 ≤ f := by omega
      simp only [natDigitsAux, if_neg h0, digitsVal, ih _ hdiv]
      omega

theorem mem_natDigitsAux_lt :
    ∀ f n d, d ∈ natDigitsAux f n → d < 10 := by
  intro f
  induction f with
  | zero => intro n d hd; simp [natDigitsAux] at hd
  | succ f ih =>
    intro n d hd
    by_cases h0 : n = 0
    · subst h0; simp [natDigitsAux] at hd
    · simp only [natDigitsAux, if_neg h0, List.mem_cons] at hd
      rcases hd with rfl | hd
      · omega
      · exact ih _ _ hd

theorem natDigitsAux_ne_nil :
    ∀ f n, 0 < n → n ≤ f → natDigitsAux f n ≠ [] := by
  intro f
  cases f with
  | zero => intro n h1 h2; omega
  | succ f =>
    intro n h1 _
    simp only [natDigitsAux, if_neg (by omega : ¬ n = 0)]
    simp

theorem getLast?_cons_of_ne_nil {α : Type} (a : α) {l : List α} (h : l ≠ []) :
    (a :: l).getLast? = l.getLast? := by
  cases l with
  | nil => exact absurd rfl h
  | cons b t => simp

theorem getLast?_natDigitsAux :
    ∀ f n, 0 < n → n ≤ f → (natDigitsAux f n).getLast? ≠ some 0 := by
  intro f
  induction f with
  | zero => intro n h1 h2; omega
  | succ f ih =>
    intro n h1 _
    simp only [natDigitsAux, if_neg (by omega : ¬ n = 0)]
    by_cases hq : n / 10 = 0
    · rw [hq, natDigitsAux_zero]
      simp only [List.getLast?_singleton, ne_eq, Option.some.injEq]
      omega
    · rw [getLast?_cons_of_ne_nil _ (natDigitsAux_ne_nil f (n / 10) (by omega) (by omega))]
      exact ih (n / 10) (by omega) (by omega)

theorem getLast?_natDigits (n : Nat) (hn : 0 < n) :
    (natDigits n).getLast? ≠ some 0 :=
  getLast?_natDigitsAux n n hn le_rfl

theorem mem_natReprBytes (n : Nat) :
    ∀ b ∈ natReprBytes n, 48 ≤ b ∧ b ≤ 57 := by
  intro b hb
  unfold natReprBytes at hb
  split at hb
  · simp at hb; omega
  · simp only [List.mem_map, List.mem_reverse] at hb
    obtain ⟨d, hd, rfl⟩ := hb
    have := mem_natDigitsAux_lt n n d hd
    omega

theorem natReprBytes_ne_nil (n : Nat) : natReprBytes n ≠ [] := by
  unfold natReprBytes
  split
  · simp
  · simp only [ne_eq, List.map_eq_nil_iff, List.reverse_eq_nil_iff]
    exact natDigitsAux_ne_nil n n (by omega) le_rfl

theorem head?_natReprBytes_ne (m : Nat) (hm : 0 < m) :
    (natReprBytes m).head? ≠ some 48 := by
  unfold natReprBytes
  rw [if_neg (by omega : ¬ m = 0), List.head?_map, List.head?_reverse]
  intro hcon
  rw [Option.map_eq_some'] at hcon
  obtain ⟨d, hd, hd48⟩ := hcon
  exact getLast?_natDigits m hm (by rw [hd]; congr 1; omega)

theorem foldl_reverse_digitsVal :
    ∀ (L : List Nat) (a : Nat),
      L.reverse.foldl (fun x d => 10 * x + d) a =
        a * 10 ^ L.length + digitsVal L := by
  intro L
  induction L with
  | nil => intro a; simp [digitsVal]
  | cons d ds ih =>
    intro a
    simp only [List.reverse_cons, List.foldl_append, ih, digitsVal,
      List.foldl_cons, List.foldl_nil, List.length_cons]
    ring

theorem parseNat_natReprBytes (n : Nat) (hn : n ≤ USIZE_MAX) :
    parseNat (natReprBytes n) = some n := by
  by_cases h0 : n = 0
  · subst h0; decide
  · obtain ⟨b, bs, hcons⟩ := List.exists_cons_of_ne_nil (natReprBytes_ne_nil n)
    have hbmem : b ∈ natReprBytes n := by rw [hcons]; exact List.mem_cons_self ..
    have hbb := mem_natReprBytes n b hbmem
    have hstrip : stripPlus (natReprBytes n) = natReprBytes n := by
      unfold stripPlus
      rw [if_neg]
      rw [hcons]
      simp only [List.head?_cons, ne_eq, Option.some.injEq]
      omega
    have hdig : (natReprBytes n).all isDigit = true := by
      rw [List.all_eq_true]
      intro x hx
      have := mem_natReprBytes n x hx
      simp only [isDigit, Bool.and_eq_true, decide_eq_true_eq]
      omega
    have hne : (natReprBytes n).isEmpty = false :=
      List.isEmpty_eq_false.mpr (natReprBytes_ne_nil n)
    have hcond : (!(natReprBytes n).isEmpty && (natReprBytes n).all isDigit) = true := by
      rw [hne, hdig]; rfl
    have hval : (natReprBytes n).foldl (fun acc b => 10 * acc + (b - 48)) 0 = n := by
      conv_lhs =>
        rw [show natReprBytes n = (natDigits n).reverse.map (fun d => 48 + d) by
          unfold natReprBytes; rw [if_neg h0]]
      rw [List.foldl_map]
      simp only [Nat.add_sub_cancel_left]
      rw [foldl_reverse_digitsVal]
      simp [digitsVal_natDigitsAux n n le_rfl, natDigits]
    unfold parseNat
    rw [hstrip, hcond, if_pos rfl, hval, if_pos hn]

/-! Helper lemmas: splitting, trimming, filtering. -/

theorem splitPipe_ne_nil : ∀ l : List Nat, splitPipe l ≠ [] := by
  intro l
  cases l with
  | nil => simp [splitPipe]
  | cons b rest =>
    simp only [splitPipe]
    split
    · simp
    · cases splitPipe rest <;> simp

theorem splitPipe_no_pipe :
    ∀ l : List Nat, (∀ b ∈ l, b ≠ 124) → splitPipe l = [l] := by
  intro l
  induction l with
  | nil => intro _; rfl
  | cons b rest ih =>
    intro h
    have hb : (b == 124) = false := by
      simp only [beq_eq_false_iff_ne, ne_eq]
      exact h b (List.mem_cons_self ..)
    simp only [splitPipe, hb, Bool.false_eq_true, if_false,
      ih fun x hx => h x (List.mem_cons_of_mem _ hx)]

theorem splitPipe_append (A B : List Nat) (hA : ∀ b ∈ A, b ≠ 124) :
    splitPipe (A ++ 124 :: B) = A :: splitPipe B := by
  induction A with
  | nil => simp [splitPipe]
  | cons a A' ih =>
    have ha : (a == 124) = false := by
      simp only [beq_eq_false_iff_ne, ne_eq]
      exact hA a (List.mem_cons_self ..)
    have ih' := ih fun x hx => hA x (List.mem_cons_of_mem _ hx)
    simp only [List.cons_append, splitPipe, ha, Bool.false_eq_true, if_false,
      List.append_eq, ih']

theorem isWs_eq_false_of_ge (b : Nat) (hb : 33 ≤ b) : isWs b = false := by
  simp only [isWs, Bool.or_eq_false_iff, beq_eq_false_iff_ne, ne_eq]
  omega

theorem wsLen_cons_eq_zero (b : Nat) (rest : List Nat)
    (h1 : 43 ≤ b) (h2 : b ≤ 127) : wsLen (b :: rest) = 0 := by
  have hws : isWs b = false := isWs_eq_false_of_ge b (by omega)
  unfold wsLen
  simp only [List.getD_cons_zero]
  rw [hws]
  simp only [Bool.false_eq_true, if_false]
  rw [if_neg (by simp only [Bool.and_eq_true, Bool.or_eq_true,
      decide_eq_true_eq]; omega),
    if_neg (by simp only [Bool.and_eq_true, decide_eq_true_eq]; omega),
    if_neg (by simp only [Bool.and_eq_true, Bool.or_eq_true,
      decide_eq_true_eq]; omega),
    if_neg (by simp only [Bool.and_eq_true, decide_eq_true_eq]; omega),
    if_neg (by simp only [Bool.and_eq_true, decide_eq_true_eq]; omega)]

theorem wsLenRev_cons_eq_zero (b : Nat) (rest : List Nat)
    (h1 : 43 ≤ b) (h2 : b ≤ 127) : wsLenRev (b :: rest) = 0 := by
  have hws : isWs b = false := isWs_eq_false_of_ge b (by omega)
  unfold wsLenRev
  simp only [List.getD_cons_zero]
  rw [hws]
  simp only [Bool.false_eq_true, if_false]
  rw [if_neg (by simp only [Bool.and_eq_true, Bool.or_eq_true,
      decide_eq_true_eq]; omega),
    if_neg (by simp only [Bool.and_eq_true, decide_eq_true_eq]; omega),
    if_neg (by simp only [Bool.and_eq_true, Bool.or_eq_true,
      decide_eq_true_eq]; omega),
    if_neg (by simp only [Bool.and_eq_true, decide_eq_true_eq]; omega),
    if_neg (by simp only [Bool.and_eq_true, decide_eq_true_eq]; omega)]

theorem dropWsAux_eq_self (f : List Nat → Nat) (fuel : Nat) (l : List Nat)
    (hf : f l = 0) : dropWsAux f fuel l = l := by
  cases fuel with
  | zero => rfl
  | succ fuel => unfold dropWsAux; rw [if_pos hf]

theorem trimBytes_eq_self (l : List Nat) (h : ∀ b ∈ l, 43 ≤ b ∧ b ≤ 127) :
    trimBytes l = l := by
  cases l with
  | nil => rfl
  | cons b bs =>
    have hb := h b (List.mem_cons_self ..)
    have h1 : wsLen (b :: bs) = 0 := wsLen_cons_eq_zero b bs hb.1 hb.2
    unfold trimBytes
    rw [dropWsAux_eq_self wsLen _ _ h1]
    obtain ⟨c, cs, hrev⟩ := List.exists_cons_of_ne_nil
      (by simp : (b :: bs).reverse ≠ [])
    have hc : c ∈ b :: bs := by
      rw [← List.mem_reverse, hrev]
      exact List.mem_cons_self ..
    have h2 : wsLenRev ((b :: bs).reverse) = 0 := by
      rw [hrev]
      exact wsLenRev_cons_eq_zero c cs (h c hc).1 (h c hc).2
    rw [dropWsAux_eq_self wsLenRev _ _ h2, List.reverse_reverse]

theorem trimBytes_natReprBytes (m : Nat) :
    trimBytes (natReprBytes m) = natReprBytes m :=
  trimBytes_eq_self _ fun b hb => by
    have := mem_natReprBytes m b hb
    omega

theorem keepField_natReprBytes (m : Nat) (hm : 0 < m) :
    keepField (natReprBytes m) = true := by
  unfold keepField
  have h1 : (natReprBytes m).isEmpty = false :=
    List.isEmpty_eq_false.mpr (natReprBytes_ne_nil m)
  rw [h1]
  simp only [Bool.not_false, Bool.true_and, bne_iff_ne, ne_eq]
  exact head?_natReprBytes_ne m hm

/-! Helper lemmas: the serialized header. -/

theorem mem_countersBytes (r w a n : Nat) :
    ∀ b ∈ countersBytes r w a n, b = 124 ∨ (48 ≤ b ∧ b ≤ 57) := by
  intro b hb
  simp only [countersBytes, List.mem_append, List.mem_cons] at hb
  rcases hb with h | h | h | h | h | h | h
  · exact Or.inr (mem_natReprBytes r b h)
  · exact Or.inl h
  · exact Or.inr (mem_natReprBytes w b h)
  · exact Or.inl h
  · exact Or.inr (mem_natReprBytes a b h)
  · exact Or.inl h
  · exact Or.inr (mem_natReprBytes n b h)

theorem countersBytes_ascii (r w a n : Nat) :
    ∀ b ∈ countersBytes r w a n, b < 128 := by
  intro b hb
  rcases mem_countersBytes r w a n b hb with h | h <;> omega

theorem countersBytes_length_pos (r w a n : Nat) :
    0 < (countersBytes r w a n).length := by
  simp only [countersBytes, List.length_append, List.length_cons]
  omega

theorem natReprBytes_ne_pipe (m : Nat) : ∀ b ∈ natReprBytes m, b ≠ 124 :=
  fun b hb => by have := mem_natReprBytes m b hb; omega

theorem splitPipe_countersBytes (r w a n : Nat) :
    splitPipe (countersBytes r w a n) =
      [natReprBytes r, natReprBytes w, natReprBytes a, natReprBytes n] := by
  unfold countersBytes
  rw [splitPipe_append _ _ (natReprBytes_ne_pipe r),
    splitPipe_append _ _ (natReprBytes_ne_pipe w),
    splitPipe_append _ _ (natReprBytes_ne_pipe a),
    splitPipe_no_pipe _ (natReprBytes_ne_pipe n)]

theorem parsedCounters_countersBytes (r w a n : Nat)
    (hr : 0 < r) (hw : 0 < w) (ha : 0 < a) (hn : 0 < n)
    (hru : r ≤ USIZE_MAX) (hwu : w ≤ USIZE_MAX)
    (hau : a ≤ USIZE_MAX) (hnu : n ≤ USIZE_MAX) :
    parsedCounters (countersBytes r w a n) = some [r, w, a, n] := by
  unfold parsedCounters
  rw [splitPipe_countersBytes]
  simp only [List.map_cons, List.map_nil, trimBytes_natReprBytes]
  rw [List.filter_eq_self.mpr]
  · simp [parseAll, parseNat_natReprBytes r hru, parseNat_natReprBytes w hwu,
      parseNat_natReprBytes a hau, parseNat_natReprBytes n hnu]
  · intro f hf
    simp only [List.mem_cons, List.not_mem_nil, or_false] at hf
    rcases hf with rfl | rfl | rfl | rfl
    · exact keepField_natReprBytes r hr
    · exact keepField_natReprBytes w hw
    · exact keepField_natReprBytes a ha
    · exact keepField_natReprBytes n hn

/-! Helper lemmas: the ideal file. -/

theorem validUtf8_of_ascii (l : List Nat) :
    (∀ b ∈ l, b < 128) → validUtf8 l = true := by
  unfold validUtf8
  induction l with
  | nil => intro _; rfl
  | cons b rest ih =>
    intro h
    have hb : b < 128 := h b (List.mem_cons_self ..)
    simp only [utf8Step, if_pos hb]
    exact ih fun x hx => h x (List.mem_cons_of_mem _ hx)

theorem length_writeBytes (c : List Nat) (p : Nat) (d : List Nat) :
    (writeBytes c p d).length = max (p + d.length) c.length := by
  simp only [writeBytes, List.length_append, List.length_take,
    List.length_replicate, List.length_drop]
  omega

theorem drop_writeBytes (c : List Nat) (p : Nat) (d : List Nat) :
    (writeBytes c p d).drop p = d ++ c.drop (p + d.length) := by
  unfold writeBytes
  rw [List.append_assoc (c.take p ++ List.replicate (p - c.length) 0),
    List.drop_left']
  simp only [List.length_append, List.length_take, List.length_replicate]
  omega

theorem drop_take_writeBytes (c : List Nat) (p : Nat) (d : List Nat) :
    ((writeBytes c p d).drop p).take d.length = d := by
  rw [drop_writeBytes, List.take_left]

theorem getElem?_writeBytes (l : List Nat) (p : Nat) (d : List Nat) (k : Nat)
    (hk : k < p) (hkc : k < l.length) :
    (writeBytes l p d)[k]? = l[k]? := by
  unfold writeBytes
  rw [List.getElem?_append_left (by simp only [List.length_append,
    List.length_take, List.length_replicate]; omega),
    List.getElem?_append_left (by simp only [List.length_append,
      List.length_take, List.length_replicate]; omega),
    List.getElem?_append_left (by simp only [List.length_take]; omega)]
  exact List.getElem?_take_of_lt hk

/-! Claim theorems. -/

/-- Claim C1: for every store with `num_pages = n`, `read_page i` and
`write_page i` fail with the out-of-bounds error if and only if `i ≥ n`;
on that failure the store state (counters, `num_pages`, file content,
cursor) and the caller's buffer are returned untouched, i.e. no file I/O
is performed; and for `i < n` both operations proceed to the
seek-and-transfer (`read_from` resp. `write_to`). -/
theorem bounds_check (h : FileHandle) (i : Nat) (d : List Nat) :
    ((read_page h i d).2.2 = .error .outOfBounds ↔ h.num_pages ≤ i)
  ∧ ((write_page h i d).2 = .error .outOfBounds ↔ h.num_pages ≤ i)
  ∧ (h.num_pages ≤ i → read_page h i d = (h, d, .error .outOfBounds))
  ∧ (h.num_pages ≤ i → write_page h i d = (h, .error .outOfBounds))
  ∧ (i < h.num_pages →
      read_page h i d =
        ((read_from h ((i + 1) * PAGE_SIZE) d).1,
          (read_from h ((i + 1) * PAGE_SIZE) d).2.1,
          .ok (read_from h ((i + 1) * PAGE_SIZE) d).2.2))
  ∧ (i < h.num_pages →
      write_page h i d =
        ({ (write_to h ((i + 1) * PAGE_SIZE) d).1 with
            write_count := (write_to h ((i + 1) * PAGE_SIZE) d).1.write_count + 1 },
          .ok (write_to h ((i + 1) * PAGE_SIZE) d).2)) := by
  by_cases hc : h.num_pages ≤ i
  · refine ⟨?_, ?_, fun _ => ?_, fun _ => ?_,
      fun hlt => absurd hlt (by omega), fun hlt => absurd hlt (by omega)⟩
    · simp [read_page, if_pos hc, hc]
    · simp [write_page, if_pos hc, hc]
    · simp [read_page, if_pos hc]
    · simp [write_page, if_pos hc]
  · have hng : ¬ i ≥ h.num_pages := by omega
    refine ⟨?_, ?_, fun hle => absurd hle hc, fun hle => absurd hle hc,
      fun _ => ?_, fun _ => ?_⟩
    · simp [read_page, if_neg hng, hc]
    · simp [write_page, if_neg hng, hc]
    · simp [read_page, if_neg hng]
    · simp [write_page, if_neg hng]

/-- Witness for C1 at the concrete store `⟨2, [], 0, 0, 0, 0⟩`:
index 5 is rejected with no state change, index 1 reaches the
seek-and-transfer. -/
theorem bounds_check_witness :
    read_page ⟨2, [], 0, 0, 0, 0⟩ 5 [] =
      (⟨2, [], 0, 0, 0, 0⟩, [], .error .outOfBounds)
  ∧ write_page ⟨2, [], 0, 0, 0, 0⟩ 5 [] =
      (⟨2, [], 0, 0, 0, 0⟩, .error .outOfBounds)
  ∧ read_page ⟨2, [], 0, 0, 0, 0⟩ 1 [] =
      ((read_from ⟨2, [], 0, 0, 0, 0⟩ ((1 + 1) * PAGE_SIZE) []).1,
        (read_from ⟨2, [], 0, 0, 0, 0⟩ ((1 + 1) * PAGE_SIZE) []).2.1,
        .ok (read_from ⟨2, [], 0, 0, 0, 0⟩ ((1 + 1) * PAGE_SIZE) []).2.2)
  ∧ write_page ⟨2, [], 0, 0, 0, 0⟩ 1 [] =
      ({ (write_to ⟨2, [], 0, 0, 0, 0⟩ ((1 + 1) * PAGE_SIZE) []).1 with
          write_count :=
            (write_to ⟨2, [], 0, 0, 0, 0⟩ ((1 + 1) * PAGE_SIZE) []).1.write_count + 1 },
        .ok (write_to ⟨2, [], 0, 0, 0, 0⟩ ((1 + 1) * PAGE_SIZE) []).2) :=
  ⟨(bounds_check ⟨2, [], 0, 0, 0, 0⟩ 5 []).2.2.1 (by decide),
   (bounds_check ⟨2, [], 0, 0, 0, 0⟩ 5 []).2.2.2.1 (by decide),
   (bounds_check ⟨2, [], 0, 0, 0, 0⟩ 1 []).2.2.2.2.1 (by decide),
   (bounds_check ⟨2, [], 0, 0, 0, 0⟩ 1 []).2.2.2.2.2 (by decide)⟩

/-- Claim C2: `read_page i`, `write_page i` and `append_page` all
address the file through the shared function
`offset i = (i + 1) * 4096`, `append_page` evaluating it at the current
`num_pages` before incrementing it. -/
theorem shared_offset (h : FileHandle) (i : Nat) (d : List Nat) :
    offset i = (i + 1) * 4096
  ∧ (i < h.num_pages →
      read_page h i d =
        ((read_from h (offset i) d).1, (read_from h (offset i) d).2.1,
          .ok (read_from h (offset i) d).2.2))
  ∧ (i < h.num_pages →
      write_page h i d =
        ({ (write_to h (offset i) d).1 with
            write_count := (write_to h (offset i) d).1.write_count + 1 },
          .ok (write_to h (offset i) d).2))
  ∧ append_page h d =
      ({ (write_to h (offset h.num_pages) d).1 with
          num_pages := (write_to h (offset h.num_pages) d).1.num_pages + 1
          append_count := (write_to h (offset h.num_pages) d).1.append_count + 1 },
        .ok (write_to h (offset h.num_pages) d).2)
  ∧ (append_page h d).1.num_pages = h.num_pages + 1 := by
  refine ⟨rfl, fun hlt => ?_, fun hlt => ?_, ?_, ?_⟩
  · simp [read_page, offset, if_neg (by omega : ¬ i ≥ h.num_pages)]
  · simp [write_page, offset, if_neg (by omega : ¬ i ≥ h.num_pages)]
  · simp [append_page, offset]
  · simp [append_page, write_to]

/-- Witness for C2 at the concrete store `⟨3, [], 0, 0, 0, 0⟩` and
index 0. -/
theorem shared_offset_witness :
    offset 0 = (0 + 1) * 4096
  ∧ read_page ⟨3, [], 0, 0, 0, 0⟩ 0 [] =
      ((read_from ⟨3, [], 0, 0, 0, 0⟩ (offset 0) []).1,
        (read_from ⟨3, [], 0, 0, 0, 0⟩ (offset 0) []).2.1,
        .ok (read_from ⟨3, [], 0, 0, 0, 0⟩ (offset 0) []).2.2)
  ∧ write_page ⟨3, [], 0, 0, 0, 0⟩ 0 [] =
      ({ (write_to ⟨3, [], 0, 0, 0, 0⟩ (offset 0) []).1 with
          write_count :=
            (write_to ⟨3, [], 0, 0, 0, 0⟩ (offset 0) []).1.write_count + 1 },
        .ok (write_to ⟨3, [], 0, 0, 0, 0⟩ (offset 0) []).2)
  ∧ (append_page ⟨3, [], 0, 0, 0, 0⟩ []).1.num_pages = 3 + 1 :=
  ⟨(shared_offset ⟨3, [], 0, 0, 0, 0⟩ 0 []).1,
   (shared_offset ⟨3, [], 0, 0, 0, 0⟩ 0 []).2.1 (by decide),
   (shared_offset ⟨3, [], 0, 0, 0, 0⟩ 0 []).2.2.1 (by decide),
   (shared_offset ⟨3, [], 0, 0, 0, 0⟩ 0 []).2.2.2.2⟩

/-- Claim C5 (code bug, flagged by the spec itself in §9): `read_page`
never updates `read_count`.  The first conjunct shows no call changes
it; the remaining conjuncts evaluate a successful read on the concrete
store `⟨1, [], 0, 5, 0, 0⟩`, after which `read_count` is still 5 where
the claim demands 6. -/
theorem read_count_never_incremented :
    (∀ (h : FileHandle) (i : Nat) (d : List Nat),
      ((read_page h i d).1).read_count = h.read_count)
  ∧ (read_page ⟨1, [], 0, 5, 0, 0⟩ 0 []).2.2 = .ok 0
  ∧ (read_page ⟨1, [], 0, 5, 0, 0⟩ 0 []).1.read_count = 5 := by
  refine ⟨fun h i d => ?_, rfl, rfl⟩
  unfold read_page
  split
  · rfl
  · simp [read_from]

/-- Claim C10: every `read_from` call appends exactly `PAGE_SIZE` bytes
to the caller's buffer (the bytes read from the file followed by zero
fill) without clearing it, while returning only the count of bytes
actually read — which can be strictly smaller, as the concrete final
conjunct shows (2-byte file, return 2, append 4096). -/
theorem read_from_appends_page (h : FileHandle) (p : Nat) (d : List Nat) :
    ((read_from h p d).2.1).length = d.length + PAGE_SIZE
  ∧ (∃ chunk, chunk.length = PAGE_SIZE ∧ (read_from h p d).2.1 = d ++ chunk ∧
      chunk = (h.content.drop p).take ((read_from h p d).2.2) ++
        List.replicate (PAGE_SIZE - (read_from h p d).2.2) 0)
  ∧ (read_from h p d).2.2 ≤ PAGE_SIZE
  ∧ (read_from ⟨0, [5, 6], 0, 0, 0, 0⟩ 0 []).2.2 = 2 := by
  refine ⟨?_, ⟨(h.content.drop p).take (min PAGE_SIZE (h.content.length - p)) ++
      List.replicate (PAGE_SIZE - min PAGE_SIZE (h.content.length - p)) 0,
      ?_, rfl, rfl⟩, ?_, rfl⟩
  · simp only [read_from, List.length_append, List.length_take,
      List.length_replicate, List.length_drop]
    omega
  · simp only [List.length_append, List.length_take, List.length_replicate,
      List.length_drop]
    omega
  · simp only [read_from]
    omega

theorem read_from_full (h : FileHandle) (p : Nat) (buf : List Nat)
    (hp : p + PAGE_SIZE ≤ h.content.length) :
    read_from h p buf =
      ({ h with pos := p + PAGE_SIZE },
        buf ++ (h.content.drop p).take PAGE_SIZE, PAGE_SIZE) := by
  unfold read_from
  rw [show min PAGE_SIZE (h.content.length - p) = PAGE_SIZE by omega]
  simp

/-- Claim C3: on a store with `num_pages = n`, appending a `PAGE_SIZE`
buffer `d` succeeds returning `PAGE_SIZE` (never out-of-bounds), writes
`d` at offset `(n + 1) * 4096`, bumps `num_pages` (hence
`get_num_pages`) to `n + 1` and `append_count` by exactly 1, and a
subsequent `read_page n` appends exactly `d` to the caller's buffer and
returns `PAGE_SIZE`. -/
theorem append_page_growth (h : FileHandle) (d : List Nat)
    (hd : d.length = PAGE_SIZE) (buf : List Nat) :
    (append_page h d).2 = .ok PAGE_SIZE
  ∧ get_num_pages (append_page h d).1 = h.num_pages + 1
  ∧ (append_page h d).1.append_count = h.append_count + 1
  ∧ ((append_page h d).1.content.drop ((h.num_pages + 1) * 4096)).take 4096 = d
  ∧ (read_page (append_page h d).1 h.num_pages buf).2.1 = buf ++ d
  ∧ (read_page (append_page h d).1 h.num_pages buf).2.2 = .ok PAGE_SIZE := by
  have hps : PAGE_SIZE = 4096 := rfl
  have hcontent : (append_page h d).1.content =
      writeBytes h.content ((h.num_pages + 1) * PAGE_SIZE) d := rfl
  have hnp : (append_page h d).1.num_pages = h.num_pages + 1 := rfl
  have base := drop_take_writeBytes h.content ((h.num_pages + 1) * PAGE_SIZE) d
  rw [hd] at base
  have hslice : ((append_page h d).1.content.drop ((h.num_pages + 1) * 4096)).take 4096 = d :=
    base
  have hlen : ((h.num_pages + 1) * PAGE_SIZE) + PAGE_SIZE ≤
      (append_page h d).1.content.length := by
    rw [hcontent, length_writeBytes, hd]
    omega
  have hread : read_page (append_page h d).1 h.num_pages buf =
      ((read_from (append_page h d).1 ((h.num_pages + 1) * PAGE_SIZE) buf).1,
        (read_from (append_page h d).1 ((h.num_pages + 1) * PAGE_SIZE) buf).2.1,
        .ok (read_from (append_page h d).1 ((h.num_pages + 1) * PAGE_SIZE) buf).2.2) := by
    unfold read_page
    rw [if_neg (by rw [hnp]; omega)]
  have hfull := read_from_full (append_page h d).1
    ((h.num_pages + 1) * PAGE_SIZE) buf hlen
  refine ⟨by simp [append_page, write_to, hd], by simp [get_num_pages, hnp],
    rfl, hslice, ?_, ?_⟩
  · rw [hread, hfull]
    rw [show ((append_page h d).1.content.drop
        ((h.num_pages + 1) * PAGE_SIZE)).take PAGE_SIZE = d from base]
  · rw [hread, hfull]

/-- Witness for C3: appending the all-7 page to the fresh store
`⟨0, [], 0, 0, 0, 0⟩` and reading page 0 back into an empty buffer. -/
theorem append_page_growth_witness :
    (append_page ⟨0, [], 0, 0, 0, 0⟩ (List.replicate 4096 7)).2 = .ok PAGE_SIZE
  ∧ get_num_pages (append_page ⟨0, [], 0, 0, 0, 0⟩ (List.replicate 4096 7)).1 = 0 + 1
  ∧ (append_page ⟨0, [], 0, 0, 0, 0⟩ (List.replicate 4096 7)).1.append_count = 0 + 1
  ∧ ((append_page ⟨0, [], 0, 0, 0, 0⟩ (List.replicate 4096 7)).1.content.drop
      ((0 + 1) * 4096)).take 4096 = List.replicate 4096 7
  ∧ (read_page (append_page ⟨0, [], 0, 0, 0, 0⟩ (List.replicate 4096 7)).1
      (⟨0, [], 0, 0, 0, 0⟩ : FileHandle).num_pages []).2.1 =
      [] ++ List.replicate 4096 7
  ∧ (read_page (append_page ⟨0, [], 0, 0, 0, 0⟩ (List.replicate 4096 7)).1
      (⟨0, [], 0, 0, 0, 0⟩ : FileHandle).num_pages []).2.2 =
      .ok PAGE_SIZE :=
  append_page_growth ⟨0, [], 0, 0, 0, 0⟩ (List.replicate 4096 7)
    (by rw [List.length_replicate]; rfl) []

theorem applyOp_mono (h : FileHandle) (op : Op) :
    h.read_count ≤ (applyOp h op).read_count ∧
    h.write_count ≤ (applyOp h op).write_count ∧
    h.append_count ≤ (applyOp h op).append_count ∧
    h.num_pages ≤ (applyOp h op).num_pages := by
  cases op with
  | read i d =>
    simp only [applyOp]
    unfold read_page
    split
    · exact ⟨le_refl _, le_refl _, le_refl _, le_refl _⟩
    · refine ⟨?_, ?_, ?_, ?_⟩ <;> simp [read_from]
  | write i d =>
    simp only [applyOp]
    unfold write_page
    split
    · exact ⟨le_refl _, le_refl _, le_refl _, le_refl _⟩
    · refine ⟨?_, ?_, ?_, ?_⟩ <;> simp [write_to]
  | append d =>
    simp only [applyOp]
    refine ⟨?_, ?_, ?_, ?_⟩ <;> simp [append_page, write_to]

theorem runOps_mono (h : FileHandle) (ops : List Op) :
    h.read_count ≤ (runOps h ops).read_count ∧
    h.write_count ≤ (runOps h ops).write_count ∧
    h.append_count ≤ (runOps h ops).append_count ∧
    h.num_pages ≤ (runOps h ops).num_pages := by
  induction ops generalizing h with
  | nil => simp [runOps]
  | cons op ops ih =>
    have h1 := applyOp_mono h op
    have h2 := ih (applyOp h op)
    simp only [runOps, List.foldl_cons] at h2 ⊢
    exact ⟨le_trans h1.1 h2.1, le_trans h1.2.1 h2.2.1,
      le_trans h1.2.2.1 h2.2.2.1, le_trans h1.2.2.2 h2.2.2.2⟩

/-- Claim C8: each successful `write_page` increments `write_count` by
exactly 1 (and succeeds exactly on an in-bounds index), each
`append_page` increments `append_count` by exactly 1 and succeeds, and
across any sequence of public operations none of the four quantities
ever decreases. -/
theorem counter_monotonicity :
    (∀ (h : FileHandle) (i : Nat) (d : List Nat), i < h.num_pages →
      (write_page h i d).1.write_count = h.write_count + 1 ∧
        ∃ m, (write_page h i d).2 = .ok m)
  ∧ (∀ (h : FileHandle) (d : List Nat),
      (append_page h d).1.append_count = h.append_count + 1 ∧
        ∃ m, (append_page h d).2 = .ok m)
  ∧ (∀ (h : FileHandle) (ops : List Op),
      h.read_count ≤ (runOps h ops).read_count ∧
      h.write_count ≤ (runOps h ops).write_count ∧
      h.append_count ≤ (runOps h ops).append_count ∧
      h.num_pages ≤ (runOps h ops).num_pages) := by
  refine ⟨fun h i d hlt => ?_, fun h d => ?_, runOps_mono⟩
  · unfold write_page
    rw [if_neg (by omega : ¬ i ≥ h.num_pages)]
    exact ⟨rfl, _, rfl⟩
  · exact ⟨rfl, _, rfl⟩

/-- Witness for C8 on the concrete store `⟨1, [], 0, 0, 0, 0⟩`, with a
concrete three-operation run. -/
theorem counter_monotonicity_witness :
    ((write_page ⟨1, [], 0, 0, 0, 0⟩ 0 [3]).1.write_count = 0 + 1 ∧
      ∃ m, (write_page ⟨1, [], 0, 0, 0, 0⟩ 0 [3]).2 = .ok m)
  ∧ ((append_page ⟨1, [], 0, 0, 0, 0⟩ [4]).1.append_count = 0 + 1 ∧
      ∃ m, (append_page ⟨1, [], 0, 0, 0, 0⟩ [4]).2 = .ok m)
  ∧ ((⟨1, [], 0, 0, 0, 0⟩ : FileHandle).read_count ≤
      (runOps ⟨1, [], 0, 0, 0, 0⟩ [.read 0 [], .append [4], .write 0 [3]]).read_count ∧
    (⟨1, [], 0, 0, 0, 0⟩ : FileHandle).write_count ≤
      (runOps ⟨1, [], 0, 0, 0, 0⟩ [.read 0 [], .append [4], .write 0 [3]]).write_count ∧
    (⟨1, [], 0, 0, 0, 0⟩ : FileHandle).append_count ≤
      (runOps ⟨1, [], 0, 0, 0, 0⟩ [.read 0 [], .append [4], .write 0 [3]]).append_count ∧
    (⟨1, [], 0, 0, 0, 0⟩ : FileHandle).num_pages ≤
      (runOps ⟨1, [], 0, 0, 0, 0⟩ [.read 0 [], .append [4], .write 0 [3]]).num_pages) :=
  ⟨counter_monotonicity.1 ⟨1, [], 0, 0, 0, 0⟩ 0 [3] (by decide),
   counter_monotonicity.2.1 ⟨1, [], 0, 0, 0, 0⟩ [4],
   counter_monotonicity.2.2 ⟨1, [], 0, 0, 0, 0⟩ [.read 0 [], .append [4], .write 0 [3]]⟩

/-- Claim C9: after construction no public operation ever writes the
header region, file bytes `[0, 4096)`: a read leaves the content
untouched entirely, and a write or append only touches offsets at or
beyond `4096`, so every header byte the constructor wrote is preserved
(`write_counters` is invoked by none of them). -/
theorem header_region_preserved (h : FileHandle) (i : Nat) (d : List Nat)
    (k : Nat) (hk : k < 4096) (hkc : k < h.content.length) :
    (read_page h i d).1.content = h.content
  ∧ (write_page h i d).1.content[k]? = h.content[k]?
  ∧ (append_page h d).1.content[k]? = h.content[k]? := by
  have hk1 : k < (i + 1) * PAGE_SIZE := by
    rw [show PAGE_SIZE = 4096 from rfl]; omega
  have hk2 : k < (h.num_pages + 1) * PAGE_SIZE := by
    rw [show PAGE_SIZE = 4096 from rfl]; omega
  refine ⟨?_, ?_, ?_⟩
  · unfold read_page
    split
    · rfl
    · simp [read_from]
  · unfold write_page
    split
    · rfl
    · exact getElem?_writeBytes h.content ((i + 1) * PAGE_SIZE) d k hk1 hkc
  · exact getElem?_writeBytes h.content ((h.num_pages + 1) * PAGE_SIZE) d k hk2 hkc

/-- Witness for C9 at the concrete store `⟨1, [55], 0, 0, 0, 0⟩`, header
byte 0. -/
theorem header_region_preserved_witness :
    (read_page ⟨1, [55], 0, 0, 0, 0⟩ 0 [9]).1.content = [55]
  ∧ (write_page ⟨1, [55], 0, 0, 0, 0⟩ 0 [9]).1.content[0]? = [55][0]?
  ∧ (append_page ⟨1, [55], 0, 0, 0, 0⟩ [9]).1.content[0]? = [55][0]? :=
  header_region_preserved ⟨1, [55], 0, 0, 0, 0⟩ 0 [9] 0 (by decide) (by decide)

/-- Claim C4 counterexample: flushing the header of a store with
counters `(r, w, a, n) = (0, 1, 1, 1)` and reopening does NOT recover
`write_count = 1` — the parser drops the field `"0"` (it starts with the
digit `0`), is left with 3 values, and falls back to all-zero
counters. -/
theorem header_roundtrip_cex :
    ¬ ∃ h', new (flushedContent 0 1 1 1) = .ok h' ∧ h'.write_count = 1 := by
  intro hex
  obtain ⟨h', he, hw⟩ := hex
  have hv : new (flushedContent 0 1 1 1) =
      .ok ⟨0, flushedContent 0 1 1 1, 7, 0, 0, 0⟩ := by rfl
  have := hv.symm.trans he
  rw [Except.ok.injEq] at this
  rw [← this] at hw
  exact absurd hw (by decide)

/-- Claim C4 as amended: the header round-trip holds whenever all four
flushed counter values are nonzero (counters are `usize` values in the
program, hence the `USIZE_MAX` bounds on the quantification).  Reopening
a file holding exactly the header flushed (at file start) by
`write_counters` from a store with counters `(r, w, a, n)`, all
positive, yields a store reporting exactly `(r, w, a, n)`.  (With any
zero value among them, the legacy zero-prefix field filter drops a
field and the constructor falls back to all-zero counters, as the
counterexample shows.) -/
theorem header_roundtrip_pos (r w a n : Nat)
    (hr : 0 < r) (hw : 0 < w) (ha : 0 < a) (hn : 0 < n)
    (hru : r ≤ USIZE_MAX) (hwu : w ≤ USIZE_MAX)
    (hau : a ≤ USIZE_MAX) (hnu : n ≤ USIZE_MAX) :
    new (flushedContent r w a n) =
      .ok ⟨n, flushedContent r w a n, (flushedContent r w a n).length, r, w, a⟩ := by
  have hfc : flushedContent r w a n = countersBytes r w a n := by
    unfold flushedContent write_counters write_to writeBytes
    simp
  rw [hfc]
  have hlen := countersBytes_length_pos r w a n
  have hutf : validUtf8 (countersBytes r w a n) = true :=
    validUtf8_of_ascii _ (countersBytes_ascii r w a n)
  unfold new
  rw [if_pos hlen, hutf, if_pos rfl,
    parsedCounters_countersBytes r w a n hr hw ha hn hru hwu hau hnu]

/-- Witness for the amended C4 at `(r, w, a, n) = (1, 1, 1, 1)`. -/
theorem header_roundtrip_pos_witness :
    new (flushedContent 1 1 1 1) =
      .ok ⟨1, flushedContent 1 1 1 1, (flushedContent 1 1 1 1).length, 1, 1, 1⟩ :=
  header_roundtrip_pos 1 1 1 1 (by decide) (by decide) (by decide) (by decide)
    (by decide) (by decide) (by decide) (by decide)

/-- Claim C6 counterexample: invoking `write_counters` on the store
state `⟨1, "0|0|0|0", 7, 1, 1, 1⟩` (header bytes on disk, cursor at 7)
does not put the serialized text `"1|1|1|1"` at the start of the file —
the source seeks nowhere, so the text lands at the cursor instead. -/
theorem write_counters_not_at_start_cex :
    (write_counters ⟨1, countersBytes 0 0 0 0, 7, 1, 1, 1⟩).1.content.take
        (countersBytes 1 1 1 1).length ≠ countersBytes 1 1 1 1
  ∧ ((write_counters ⟨1, countersBytes 0 0 0 0, 7, 1, 1, 1⟩).1.content.drop 7).take
        (countersBytes 1 1 1 1).length = countersBytes 1 1 1 1 := by
  constructor
  · decide
  · decide

/-- Claim C6 as amended: `write_counters` serializes `read_count`,
`write_count`, `append_count`, `num_pages` in that pipe-delimited order,
but writes the text at the file's current cursor position `pos` (the
source performs no seek), not at offset 0: the serialized bytes appear
at `[pos, pos + len)`, every pre-existing byte before `pos` is
preserved, the write returns the serialized length, and the counters
themselves are unchanged. -/
theorem write_counters_serializes_at_pos (h : FileHandle) :
    ((write_counters h).1.content.drop h.pos).take
        (countersBytes h.read_count h.write_count h.append_count h.num_pages).length =
      countersBytes h.read_count h.write_count h.append_count h.num_pages
  ∧ (write_counters h).2 =
      (countersBytes h.read_count h.write_count h.append_count h.num_pages).length
  ∧ (write_counters h).1.pos = h.pos +
      (countersBytes h.read_count h.write_count h.append_count h.num_pages).length
  ∧ (write_counters h).1.read_count = h.read_count
  ∧ (write_counters h).1.write_count = h.write_count
  ∧ (write_counters h).1.append_count = h.append_count
  ∧ (write_counters h).1.num_pages = h.num_pages
  ∧ ∀ k, k < h.pos → k < h.content.length →
      (write_counters h).1.content[k]? = h.content[k]? := by
  refine ⟨?_, rfl, rfl, rfl, rfl, rfl, rfl, fun k hk hkc => ?_⟩
  · exact drop_take_writeBytes h.content h.pos _
  · exact getElem?_writeBytes h.content h.pos _ k hk hkc

/-- Witness for the amended C6 at the store `⟨1, [57, 57], 2, 1, 1, 1⟩`
(two bytes on disk, cursor at 2), checking preservation of byte 0. -/
theorem write_counters_serializes_at_pos_witness :
    ((write_counters ⟨1, [57, 57], 2, 1, 1, 1⟩).1.content.drop 2).take
        (countersBytes 1 1 1 1).length = countersBytes 1 1 1 1
  ∧ (write_counters ⟨1, [57, 57], 2, 1, 1, 1⟩).2 = (countersBytes 1 1 1 1).length
  ∧ (write_counters ⟨1, [57, 57], 2, 1, 1, 1⟩).1.pos =
      2 + (countersBytes 1 1 1 1).length
  ∧ (write_counters ⟨1, [57, 57], 2, 1, 1, 1⟩).1.content[0]? = [57, 57][0]? :=
  ⟨(write_counters_serializes_at_pos ⟨1, [57, 57], 2, 1, 1, 1⟩).1,
   (write_counters_serializes_at_pos ⟨1, [57, 57], 2, 1, 1, 1⟩).2.1,
   (write_counters_serializes_at_pos ⟨1, [57, 57], 2, 1, 1, 1⟩).2.2.1,
   (write_counters_serializes_at_pos ⟨1, [57, 57], 2, 1, 1, 1⟩).2.2.2.2.2.2.2
     0 (by decide) (by decide)⟩

/-- Claim C7 counterexample: the non-empty file whose single byte is
`120` (the letter x) yields no 4-value parse — the retained field fails
`parse().unwrap()`, so the constructor panics instead of succeeding with
all-zero counters; a mangled header CAN prevent construction.  The same
happens on the 26-digit file of `'9'`s, whose single field overflows
`usize` (`PosOverflow`) before the `.unwrap()`. -/
theorem header_parse_panic_cex :
    parsedCounters [120] = none ∧ new [120] = .error .panicked
  ∧ parsedCounters (List.replicate 26 57) = none
  ∧ new (List.replicate 26 57) = .error .panicked := by
  refine ⟨by decide, rfl, by decide, rfl⟩

/-- Claim C7 as amended: for every non-empty file whose content is
readable text and whose retained header fields all parse but do not
number exactly 4, construction succeeds with all four counters and
`num_pages` set to 0; but when a retained field fails to parse — either
non-numeric content or a numeral above `USIZE_MAX` — the constructor
panics (spec 4.1: a malformed numeric field is fatal), so a mangled
header does not always yield a store. -/
theorem header_fallback_zero (content l : List Nat)
    (h1 : 0 < content.length) (h2 : validUtf8 content = true)
    (h3 : parsedCounters content = some l) (h4 : l.length ≠ 4) :
    new content = .ok ⟨0, content, content.length, 0, 0, 0⟩ := by
  unfold new
  rw [if_pos h1, h2, if_pos rfl, h3]
  rcases l with _ | ⟨x1, _ | ⟨x2, _ | ⟨x3, _ | ⟨x4, _ | ⟨x5, rest⟩⟩⟩⟩⟩
  · rfl
  · rfl
  · rfl
  · rfl
  · simp at h4
  · rfl

/-- Witness for the amended C7 on the file `"1|2"`: two parsed values,
fallback to the all-zero store. -/
theorem header_fallback_zero_witness :
    new [49, 124, 50] = .ok ⟨0, [49, 124, 50], 3, 0, 0, 0⟩ :=
  header_fallback_zero [49, 124, 50] [1, 2] (by decide) (by decide)
    (by decide) (by decide)

end RustDb
